import Mathlib

/-!
Shallow embedding of the `frozenset` crate (`src/lib.rs`): the `FrozenMap` and
`FrozenSet` wrappers around `HashMap` / `HashSet`, their equality, their
order-independent XOR-combination hash, the `Freeze`/`thaw` conversion pair,
indexing, and `FromIterator` construction.

Modelling choices:
* A `HashMap<K, V, S>` is modelled as an association list of entries in its
  (arbitrary) iteration order, with the invariant that keys are unique, plus
  the `BuildHasher` instance it carries (a value of the phantom type `S`;
  it never influences observable behaviour of the wrapper operations, exactly
  as in the source, where only `DefaultHasher::new()` is used for digests).
* A `HashSet<T, S>` is a duplicate-free list of elements plus its hasher.
* A per-entry `DefaultHasher` run (`new`, feed the fields, `finish`) is
  modelled as an arbitrary digest function into `u64` (`% 2^64`); the
  theorems hold for every digest function, in particular for SipHash-1-3.
* The caller-supplied output hasher `H` is modelled by its state (a `Nat`)
  and a write function `Nat → Nat → Nat` consuming the one `u64` that
  `Hash::hash` feeds it (`overall_hash.hash(state)`).
* Panics (absent-key indexing) are modelled as `Option.none`.
-/

namespace Frozenset

/-- Model of `std::collections::hash_map::RandomState`: two random 64-bit
keys.  Their values never influence the wrapper's behaviour. -/
structure RandomState where
  k0 : Nat
  k1 : Nat
deriving DecidableEq, Repr

/-- Model of `HashMap<K, V, S>`: entries in iteration order, unique keys,
and the hash-strategy instance. -/
structure HashMapM (K V S : Type) where
  entries : List (K × V)
  nodupKeys : (entries.map Prod.fst).Nodup
  hashBuilder : S

/-- Model of `HashSet<T, S>`: elements in iteration order, no duplicates,
and the hash-strategy instance. -/
structure HashSetM (T S : Type) where
  elems : List T
  nodupElems : elems.Nodup
  hashBuilder : S

/-- `FrozenMap<K, V, S>` (src/lib.rs:93-95): owns one `HashMap`. -/
structure FrozenMap (K V S : Type) where
  map : HashMapM K V S

/-- `FrozenSet<T, S>` (src/lib.rs:200-202): owns one `HashSet`. -/
structure FrozenSet (T S : Type) where
  set : HashSetM T S

/-- `HashMap::get` / lookup by key: first entry whose key matches (with
unique keys, the only one). -/
def lookupEntry {K V : Type} [DecidableEq K] (k : K) : List (K × V) → Option V
  | [] => none
  | (k', v) :: rest => if k' = k then some v else lookupEntry k rest

/-- `impl Freeze for HashMap` (src/lib.rs:64-72): wrap the map, moving it. -/
def HashMapM.freeze {K V S : Type} (m : HashMapM K V S) : FrozenMap K V S :=
  ⟨m⟩

/-- `impl Freeze for HashSet` (src/lib.rs:73-81): wrap the set, moving it. -/
def HashSetM.freeze {T S : Type} (s : HashSetM T S) : FrozenSet T S :=
  ⟨s⟩

/-- `FrozenMap::thaw` (src/lib.rs:105-107): return the underlying map.
Only available at the default `RandomState` strategy, as in the source. -/
def FrozenMap.thaw {K V : Type} (m : FrozenMap K V RandomState) :
    HashMapM K V RandomState :=
  m.map

/-- `FrozenSet::thaw` (src/lib.rs:214-216): return the underlying set. -/
def FrozenSet.thaw {T : Type} (s : FrozenSet T RandomState) :
    HashSetM T RandomState :=
  s.set

/-- `HashMap` `PartialEq` (delegated to by src/lib.rs:162-166): equal
lengths and every entry of `self` found in `other` with an equal value. -/
def hashMapEq {K V S : Type} [DecidableEq K] [DecidableEq V]
    (a b : HashMapM K V S) : Bool :=
  a.entries.length == b.entries.length &&
    a.entries.all fun e =>
      match lookupEntry e.1 b.entries with
      | some v => decide (e.2 = v)
      | none => false

/-- `HashSet` `PartialEq` (delegated to by src/lib.rs:257-261): equal
lengths and every element of `self` contained in `other`. -/
def hashSetEq {T S : Type} [DecidableEq T] (a b : HashSetM T S) : Bool :=
  a.elems.length == b.elems.length &&
    a.elems.all fun x => decide (x ∈ b.elems)

/-- `impl PartialEq for FrozenMap` (src/lib.rs:162-166):
`self.map.eq(&other.map)`. -/
def FrozenMap.eq {K V S : Type} [DecidableEq K] [DecidableEq V]
    (a b : FrozenMap K V S) : Bool :=
  hashMapEq a.map b.map

/-- `impl PartialEq for FrozenSet` (src/lib.rs:257-261):
`self.set.eq(&other.set)`. -/
def FrozenSet.eq {T S : Type} [DecidableEq T] (a b : FrozenSet T S) : Bool :=
  hashSetEq a.set b.set

/-- `2^64`: the modulus of `u64`, the width of `DefaultHasher::finish`. -/
def U64MOD : Nat := 18446744073709551616

/-- The XOR accumulation loop shared by both `Hash` impls
(src/lib.rs:179-185 and src/lib.rs:274-279): `overall_hash` starts at `0`
and each entry's fresh-`DefaultHasher` digest (`g x`, a `u64`) is XORed in,
in iteration order. -/
def xorFoldDigest {α : Type} (g : α → Nat) (l : List α) : Nat :=
  l.foldl (fun acc x => acc ^^^ (g x % U64MOD)) 0

/-- `impl Hash for FrozenMap` (src/lib.rs:171-188): XOR the per-pair
digests (`dm k v` models hashing `k` then `v` into a fresh `DefaultHasher`
and finishing), then feed the accumulator to the output hasher. -/
def FrozenMap.hashImpl {K V S : Type} (dm : K → V → Nat)
    (write : Nat → Nat → Nat) (state : Nat) (m : FrozenMap K V S) : Nat :=
  write state (xorFoldDigest (fun e => dm e.1 e.2) m.map.entries)

/-- `impl Hash for FrozenSet` (src/lib.rs:266-282): XOR the per-element
digests, then feed the accumulator to the output hasher. -/
def FrozenSet.hashImpl {T S : Type} (ds : T → Nat)
    (write : Nat → Nat → Nat) (state : Nat) (s : FrozenSet T S) : Nat :=
  write state (xorFoldDigest ds s.set.elems)

/-- `impl Index<&Q> for FrozenMap` (src/lib.rs:145-153): `&self.map[key]`.
`none` models the panic of `HashMap`'s `Index` on an absent key. -/
def FrozenMap.index {K V S : Type} [DecidableEq K]
    (m : FrozenMap K V S) (k : K) : Option V :=
  lookupEntry k m.map.entries

/-- `HashMap::insert k v` as it acts on the entry list: replace the value
at an existing key, otherwise add the new entry. -/
def insertPair {K V : Type} [DecidableEq K] (l : List (K × V)) (k : K)
    (v : V) : List (K × V) :=
  if k ∈ l.map Prod.fst then
    l.map fun e => if e.1 = k then (e.1, v) else e
  else l ++ [(k, v)]

/-- `HashMap::from_iter`: start empty and insert each pair in order. -/
def insertAll {K V : Type} [DecidableEq K] (l : List (K × V)) :
    List (K × V) :=
  l.foldl (fun acc e => insertPair acc e.1 e.2) []

/-- `HashSet::insert x` on the element list: no-op when present. -/
def insertElem {T : Type} [DecidableEq T] (l : List T) (x : T) : List T :=
  if x ∈ l then l else l ++ [x]

/-- `HashSet::from_iter`: start empty and insert each element in order. -/
def insertAllElems {T : Type} [DecidableEq T] (l : List T) : List T :=
  l.foldl insertElem []

/-- The value of the last pair in `l` carrying key `k`, if any: the value
that last-write-wins insertion leaves at `k`. -/
def lastVal {K V : Type} [DecidableEq K] (k : K) :
    List (K × V) → Option V
  | [] => none
  | (k', v) :: rest =>
    match lastVal k rest with
    | some v' => some v'
    | none => if k' = k then some v else none

/-- With unique keys, every entry of the list is found by lookup. -/
theorem lookupEntry_eq_some_of_mem {K V : Type} [DecidableEq K]
    {l : List (K × V)} {k : K} {v : V}
    (hnd : (l.map Prod.fst).Nodup) (hm : (k, v) ∈ l) :
    lookupEntry k l = some v := by
  induction l with
  | nil => cases hm
  | cons e rest ih =>
    obtain ⟨k', v'⟩ := e
    simp only [List.map_cons, List.nodup_cons] at hnd
    rcases List.mem_cons.mp hm with heq | hmem
    · injection heq with h1 h2
      subst h1
      subst h2
      simp [lookupEntry]
    · have hne : k' ≠ k := by
        intro h
        subst h
        exact hnd.1 (List.mem_map.mpr ⟨(k', v), hmem, rfl⟩)
      simp [lookupEntry, hne, ih hnd.2 hmem]

/-- A successful lookup returns an entry of the list. -/
theorem mem_of_lookupEntry_eq_some {K V : Type} [DecidableEq K]
    {l : List (K × V)} {k : K} {v : V}
    (h : lookupEntry k l = some v) : (k, v) ∈ l := by
  induction l with
  | nil => simp [lookupEntry] at h
  | cons e rest ih =>
    obtain ⟨k', v'⟩ := e
    by_cases hk : k' = k
    · subst hk
      simp only [lookupEntry, if_true, eq_self_iff_true, Option.some.injEq] at h
      subst h
      exact List.mem_cons_self _ _
    · simp only [lookupEntry, if_neg hk] at h
      exact List.mem_cons_of_mem _ (ih h)

/-- Lookup succeeds exactly on the keys of the list. -/
theorem lookupEntry_isSome_iff {K V : Type} [DecidableEq K]
    {l : List (K × V)} {k : K} :
    (lookupEntry k l).isSome = true ↔ k ∈ l.map Prod.fst := by
  induction l with
  | nil => simp [lookupEntry]
  | cons e rest ih =>
    obtain ⟨k', v'⟩ := e
    by_cases hk : k' = k
    · subst hk
      simp [lookupEntry]
    · simp only [lookupEntry, if_neg hk, List.map_cons, List.mem_cons, ih]
      constructor
      · exact Or.inr
      · rintro (h | h)
        · exact absurd h.symm hk
        · exact h

/-- Lookup fails exactly off the keys of the list. -/
theorem lookupEntry_eq_none_iff {K V : Type} [DecidableEq K]
    {l : List (K × V)} {k : K} :
    lookupEntry k l = none ↔ k ∉ l.map Prod.fst := by
  rw [← Option.not_isSome_iff_eq_none, lookupEntry_isSome_iff]

/-- Unique keys make the entry list itself duplicate-free. -/
theorem nodup_entries_of_nodupKeys {K V : Type} {l : List (K × V)}
    (hnd : (l.map Prod.fst).Nodup) : l.Nodup :=
  List.Nodup.of_map Prod.fst hnd

/-- The XOR accumulation is invariant under permutation of the input list:
XOR is commutative and associative, so the fold ignores iteration order. -/
theorem xorFoldDigest_perm {α : Type} (g : α → Nat) {l₁ l₂ : List α}
    (p : l₁.Perm l₂) : xorFoldDigest g l₁ = xorFoldDigest g l₂ :=
  p.foldl_eq'
    (fun x _ y _ z => by
      rw [Nat.xor_assoc, Nat.xor_assoc, Nat.xor_comm (g x % U64MOD)])
    0

/-- Lists with unique keys and the same entry membership are permutations
of one another. -/
theorem perm_of_entries_mem_iff {K V : Type} {l₁ l₂ : List (K × V)}
    (h₁ : (l₁.map Prod.fst).Nodup) (h₂ : (l₂.map Prod.fst).Nodup)
    (h : ∀ p, p ∈ l₁ ↔ p ∈ l₂) : l₁.Perm l₂ :=
  (List.perm_ext_iff_of_nodup (nodup_entries_of_nodupKeys h₁)
    (nodup_entries_of_nodupKeys h₂)).mpr h

/-- `HashMap` equality holds exactly when the two maps agree as finite
maps: the same lookup result at every key. -/
theorem hashMapEq_true_iff {K V S : Type} [DecidableEq K] [DecidableEq V]
    (a b : HashMapM K V S) :
    hashMapEq a b = true ↔
      ∀ k, lookupEntry k a.entries = lookupEntry k b.entries := by
  rw [hashMapEq, Bool.and_eq_true]
  constructor
  · rintro ⟨hlen, hall⟩
    have hlen' : a.entries.length = b.entries.length :=
      beq_iff_eq.mp hlen
    have hfwd : ∀ k v, lookupEntry k a.entries = some v →
        lookupEntry k b.entries = some v := by
      intro k v hkv
      have hmem := mem_of_lookupEntry_eq_some hkv
      have hb := List.all_eq_true.mp hall _ hmem
      cases hcase : lookupEntry k b.entries with
      | none => rw [hcase] at hb; cases hb
      | some w =>
        rw [hcase] at hb
        simp only [decide_eq_true_eq] at hb
        rw [hb]
    have hsub : a.entries.map Prod.fst ⊆ b.entries.map Prod.fst := by
      intro k hk
      obtain ⟨v, hv⟩ :=
        Option.isSome_iff_exists.mp (lookupEntry_isSome_iff.mpr hk)
      exact lookupEntry_isSome_iff.mp (by rw [hfwd k v hv]; rfl)
    have hperm : (a.entries.map Prod.fst).Perm (b.entries.map Prod.fst) :=
      (List.subperm_of_subset a.nodupKeys hsub).perm_of_length_le
        (by simp [hlen'])
    intro k
    cases ha : lookupEntry k a.entries with
    | some v => exact (hfwd k v ha).symm
    | none =>
      cases hb : lookupEntry k b.entries with
      | none => rfl
      | some w =>
        have hkb : k ∈ b.entries.map Prod.fst :=
          lookupEntry_isSome_iff.mp (by rw [hb]; rfl)
        have hka := lookupEntry_isSome_iff.mpr (hperm.mem_iff.mpr hkb)
        rw [ha] at hka
        cases hka
  · intro h
    constructor
    · have hiff : ∀ k,
          k ∈ a.entries.map Prod.fst ↔ k ∈ b.entries.map Prod.fst := by
        intro k
        rw [← lookupEntry_isSome_iff, ← lookupEntry_isSome_iff, h k]
      have hperm :=
        (List.perm_ext_iff_of_nodup a.nodupKeys b.nodupKeys).mpr hiff
      have hlen := hperm.length_eq
      simp only [List.length_map] at hlen
      exact beq_iff_eq.mpr hlen
    · rw [List.all_eq_true]
      rintro ⟨k, v⟩ he
      have ha : lookupEntry k a.entries = some v :=
        lookupEntry_eq_some_of_mem a.nodupKeys he
      have hb : lookupEntry k b.entries = some v := by rw [← h k]; exact ha
      simp [hb]

/-- `HashSet` equality holds exactly when the two sets have the same
elements. -/
theorem hashSetEq_true_iff {T S : Type} [DecidableEq T]
    (a b : HashSetM T S) :
    hashSetEq a b = true ↔ ∀ x, x ∈ a.elems ↔ x ∈ b.elems := by
  rw [hashSetEq, Bool.and_eq_true]
  constructor
  · rintro ⟨hlen, hall⟩
    have hlen' : a.elems.length = b.elems.length :=
      beq_iff_eq.mp hlen
    have hsub : a.elems ⊆ b.elems := by
      intro x hx
      have := List.all_eq_true.mp hall _ hx
      simpa using this
    have hperm : a.elems.Perm b.elems :=
      (List.subperm_of_subset a.nodupElems hsub).perm_of_length_le
        (le_of_eq hlen'.symm)
    exact fun x => hperm.mem_iff
  · intro h
    have hperm :=
      (List.perm_ext_iff_of_nodup a.nodupElems b.nodupElems).mpr h
    refine ⟨beq_iff_eq.mpr hperm.length_eq, ?_⟩
    rw [List.all_eq_true]
    intro x hx
    simpa using (h x).mp hx

/-- The left XOR accumulation, started at `a0`, equals `a0` XOR a right
fold of the digests. -/
theorem foldl_xor_eq_xor_foldr {α : Type} (g : α → Nat) :
    ∀ (l : List α) (a0 : Nat),
      l.foldl (fun acc x => acc ^^^ (g x % U64MOD)) a0 =
        a0 ^^^ l.foldr (fun x acc => (g x % U64MOD) ^^^ acc) 0 := by
  intro l
  induction l with
  | nil => intro a0; simp
  | cons x rest ih =>
    intro a0
    rw [List.foldl_cons, List.foldr_cons, ih, Nat.xor_assoc]

/-- The XOR accumulation is the right XOR fold of per-entry digests. -/
theorem xorFoldDigest_eq_foldr {α : Type} (g : α → Nat) (l : List α) :
    xorFoldDigest g l =
      (l.map fun x => g x % U64MOD).foldr (fun d acc => d ^^^ acc) 0 := by
  rw [xorFoldDigest, foldl_xor_eq_xor_foldr, Nat.zero_xor, List.foldr_map]

/-- Inserting a pair leaves the key list unchanged when the key is present
and appends the key otherwise. -/
theorem insertPair_keys {K V : Type} [DecidableEq K] (l : List (K × V))
    (k : K) (v : V) :
    (insertPair l k v).map Prod.fst =
      if k ∈ l.map Prod.fst then l.map Prod.fst
      else l.map Prod.fst ++ [k] := by
  rw [insertPair]
  by_cases h : k ∈ l.map Prod.fst
  · rw [if_pos h, if_pos h, List.map_map]
    refine List.map_congr_left ?_
    intro e _
    by_cases he : e.1 = k <;> simp [he]
  · rw [if_neg h, if_neg h]
    simp

/-- Inserting a pair preserves uniqueness of keys. -/
theorem insertPair_nodupKeys {K V : Type} [DecidableEq K]
    {l : List (K × V)} {k : K} {v : V}
    (hnd : (l.map Prod.fst).Nodup) :
    ((insertPair l k v).map Prod.fst).Nodup := by
  rw [insertPair_keys]
  by_cases h : k ∈ l.map Prod.fst
  · rw [if_pos h]; exact hnd
  · rw [if_neg h]
    rw [List.nodup_append]
    refine ⟨hnd, List.nodup_singleton k, ?_⟩
    intro x hx hx1
    rw [List.mem_singleton] at hx1
    subst hx1
    exact h hx

/-- Lookup commutes with `++`: search the left part first. -/
theorem lookupEntry_append {K V : Type} [DecidableEq K] (k : K) :
    ∀ (l₁ l₂ : List (K × V)),
      lookupEntry k (l₁ ++ l₂) =
        match lookupEntry k l₁ with
        | some v => some v
        | none => lookupEntry k l₂ := by
  intro l₁
  induction l₁ with
  | nil => intro l₂; rfl
  | cons e rest ih =>
    intro l₂
    obtain ⟨k', v'⟩ := e
    by_cases hk : k' = k
    · subst hk
      simp [lookupEntry]
    · simp [lookupEntry, hk, ih]

/-- Unfolding lemma: lookup on a cons cell. -/
theorem lookupEntry_cons {K V : Type} [DecidableEq K] (k k' : K) (v : V)
    (rest : List (K × V)) :
    lookupEntry k ((k', v) :: rest) =
      if k' = k then some v else lookupEntry k rest :=
  rfl

/-- Replacing the value at a present key makes lookup find the new value. -/
theorem lookupEntry_replace_eq {K V : Type} [DecidableEq K]
    {l : List (K × V)} {k : K} (hmem : k ∈ l.map Prod.fst) (v : V) :
    lookupEntry k (l.map fun e => if e.1 = k then (e.1, v) else e) =
      some v := by
  induction l with
  | nil => cases hmem
  | cons e rest ih =>
    obtain ⟨k', v'⟩ := e
    simp only [List.map_cons]
    by_cases hk : k' = k
    · rw [show (if (k', v').1 = k then ((k', v').1, v) else (k', v')) =
        (k', v) from by rw [if_pos hk]]
      rw [lookupEntry_cons, if_pos hk]
    · rw [show (if (k', v').1 = k then ((k', v').1, v) else (k', v')) =
        (k', v') from by rw [if_neg hk]]
      rw [lookupEntry_cons, if_neg hk]
      simp only [List.map_cons, List.mem_cons] at hmem
      rcases hmem with h | h
      · exact absurd h.symm hk
      · exact ih h

/-- Replacing the value at a different key leaves lookup unchanged. -/
theorem lookupEntry_replace_ne {K V : Type} [DecidableEq K]
    {k' k : K} (hne : k' ≠ k) (v : V) :
    ∀ l : List (K × V),
      lookupEntry k (l.map fun e => if e.1 = k' then (e.1, v) else e) =
        lookupEntry k l := by
  intro l
  induction l with
  | nil => rfl
  | cons e rest ih =>
    obtain ⟨k₀, v₀⟩ := e
    simp only [List.map_cons]
    by_cases hk : k₀ = k'
    · rw [show (if (k₀, v₀).1 = k' then ((k₀, v₀).1, v) else (k₀, v₀)) =
        (k₀, v) from by rw [if_pos hk]]
      have hne' : k₀ ≠ k := fun h => hne (hk.symm.trans h)
      rw [lookupEntry_cons, lookupEntry_cons, if_neg hne', if_neg hne', ih]
    · rw [show (if (k₀, v₀).1 = k' then ((k₀, v₀).1, v) else (k₀, v₀)) =
        (k₀, v₀) from by rw [if_neg hk]]
      by_cases hk0 : k₀ = k
      · rw [lookupEntry_cons, lookupEntry_cons, if_pos hk0, if_pos hk0]
      · rw [lookupEntry_cons, lookupEntry_cons, if_neg hk0, if_neg hk0, ih]

/-- Lookup after an insertion: the inserted key maps to the new value,
every other key is untouched. -/
theorem lookupEntry_insertPair {K V : Type} [DecidableEq K]
    (l : List (K × V)) (k' : K) (v : V) (k : K) :
    lookupEntry k (insertPair l k' v) =
      if k' = k then some v else lookupEntry k l := by
  rw [insertPair]
  by_cases hmem : k' ∈ l.map Prod.fst
  · rw [if_pos hmem]
    by_cases hk : k' = k
    · subst hk
      rw [lookupEntry_replace_eq hmem, if_pos rfl]
    · rw [lookupEntry_replace_ne hk, if_neg hk]
  · rw [if_neg hmem, lookupEntry_append]
    by_cases hk : k' = k
    · subst hk
      rw [lookupEntry_eq_none_iff.mpr hmem]
      simp [lookupEntry]
    · cases h : lookupEntry k l with
      | some w => rw [if_neg hk]
      | none =>
        rw [if_neg hk]
        simp [lookupEntry, hk]

/-- Folding insertions preserves uniqueness of keys. -/
theorem foldl_insertPair_nodupKeys {K V : Type} [DecidableEq K] :
    ∀ (l acc : List (K × V)), ((acc.map Prod.fst).Nodup) →
      (((l.foldl (fun a e => insertPair a e.1 e.2) acc).map
        Prod.fst).Nodup) := by
  intro l
  induction l with
  | nil => intro acc h; exact h
  | cons e rest ih =>
    intro acc h
    rw [List.foldl_cons]
    exact ih _ (insertPair_nodupKeys h)

/-- The key list built by `insertAll` is duplicate-free. -/
theorem insertAll_nodupKeys {K V : Type} [DecidableEq K]
    (l : List (K × V)) : ((insertAll l).map Prod.fst).Nodup :=
  foldl_insertPair_nodupKeys l [] List.nodup_nil

/-- Lookup after folding insertions over `l` into `acc`: the last write in
`l` wins, falling back to `acc`. -/
theorem lookupEntry_foldl_insertPair {K V : Type} [DecidableEq K] (k : K) :
    ∀ (l acc : List (K × V)),
      lookupEntry k (l.foldl (fun a e => insertPair a e.1 e.2) acc) =
        match lastVal k l with
        | some v => some v
        | none => lookupEntry k acc := by
  intro l
  induction l with
  | nil => intro acc; rfl
  | cons e rest ih =>
    intro acc
    obtain ⟨k', v⟩ := e
    rw [List.foldl_cons, ih]
    show _ = (match lastVal k ((k', v) :: rest) with
      | some w => some w
      | none => lookupEntry k acc)
    rw [show lastVal k ((k', v) :: rest) =
      (match lastVal k rest with
       | some v' => some v'
       | none => if k' = k then some v else none) from rfl]
    cases lastVal k rest with
    | some w => rfl
    | none =>
      rw [lookupEntry_insertPair]
      by_cases hk : k' = k
      · rw [if_pos hk, if_pos hk]
      · rw [if_neg hk, if_neg hk]

/-- Lookup in the list built by `insertAll` is the last write in the
input. -/
theorem lookupEntry_insertAll {K V : Type} [DecidableEq K] (k : K)
    (l : List (K × V)) :
    lookupEntry k (insertAll l) = lastVal k l := by
  rw [insertAll, lookupEntry_foldl_insertPair]
  cases lastVal k l <;> rfl

/-- Membership after a set insertion. -/
theorem mem_insertElem {T : Type} [DecidableEq T] {l : List T} {x y : T} :
    y ∈ insertElem l x ↔ y ∈ l ∨ y = x := by
  rw [insertElem]
  by_cases h : x ∈ l
  · rw [if_pos h]
    constructor
    · exact Or.inl
    · rintro (hy | rfl)
      · exact hy
      · exact h
  · rw [if_neg h]
    simp

/-- Set insertion preserves freedom from duplicates. -/
theorem insertElem_nodup {T : Type} [DecidableEq T] {l : List T} {x : T}
    (h : l.Nodup) : (insertElem l x).Nodup := by
  rw [insertElem]
  by_cases hx : x ∈ l
  · rw [if_pos hx]; exact h
  · rw [if_neg hx]
    rw [List.nodup_append]
    refine ⟨h, List.nodup_singleton x, ?_⟩
    intro y hy hy1
    rw [List.mem_singleton] at hy1
    subst hy1
    exact hx hy

/-- Membership after folding set insertions. -/
theorem mem_foldl_insertElem {T : Type} [DecidableEq T] {y : T} :
    ∀ (l acc : List T),
      y ∈ l.foldl insertElem acc ↔ y ∈ acc ∨ y ∈ l := by
  intro l
  induction l with
  | nil => intro acc; simp
  | cons x rest ih =>
    intro acc
    rw [List.foldl_cons, ih, mem_insertElem]
    simp only [List.mem_cons]
    tauto

/-- The element list built by `insertAllElems` has the input's members. -/
theorem mem_insertAllElems {T : Type} [DecidableEq T] {l : List T}
    {y : T} : y ∈ insertAllElems l ↔ y ∈ l := by
  rw [insertAllElems, mem_foldl_insertElem]
  simp

/-- Folding set insertions preserves freedom from duplicates. -/
theorem foldl_insertElem_nodup {T : Type} [DecidableEq T] :
    ∀ (l acc : List T), acc.Nodup → (l.foldl insertElem acc).Nodup := by
  intro l
  induction l with
  | nil => intro acc h; exact h
  | cons x rest ih =>
    intro acc h
    rw [List.foldl_cons]
    exact ih _ (insertElem_nodup h)

/-- The element list built by `insertAllElems` is duplicate-free. -/
theorem insertAllElems_nodup {T : Type} [DecidableEq T] (l : List T) :
    (insertAllElems l).Nodup :=
  foldl_insertElem_nodup l [] List.nodup_nil

/-- `impl FromIterator<(K, V)> for FrozenMap` (src/lib.rs:133-144):
collect the pairs into a fresh map (with the default-constructed strategy
instance `s`) and wrap it. -/
def FrozenMap.fromIter {K V S : Type} [DecidableEq K] (s : S)
    (l : List (K × V)) : FrozenMap K V S :=
  ⟨⟨insertAll l, insertAll_nodupKeys l, s⟩⟩

/-- `impl FromIterator<T> for FrozenSet` (src/lib.rs:242-248): collect the
elements into a fresh set and wrap it. -/
def FrozenSet.fromIter {T S : Type} [DecidableEq T] (s : S)
    (l : List T) : FrozenSet T S :=
  ⟨⟨insertAllElems l, insertAllElems_nodup l, s⟩⟩

/-- `impl Default for FrozenMap` (src/lib.rs:116-122): an empty map with
the default-constructed strategy instance `s`.  `FrozenMap::new`
(src/lib.rs:99-101) is this at `S = RandomState`. -/
def FrozenMap.mkDefault {K V S : Type} (s : S) : FrozenMap K V S :=
  ⟨⟨[], List.nodup_nil, s⟩⟩

/-- `impl Default for FrozenSet` (src/lib.rs:225-231): an empty set with
the default-constructed strategy instance `s`.  `FrozenSet::new`
(src/lib.rs:206-210) is this at `S = RandomState`. -/
def FrozenSet.mkDefault {T S : Type} (s : S) : FrozenSet T S :=
  ⟨⟨[], List.nodup_nil, s⟩⟩

/-- Modelled from the spec (§4.3, the order-independent hash reducer, an
algorithm the spec states in its own words): the accumulator starts at
zero, every per-entry digest is combined into it by XOR, and the final
accumulator is fed into the caller-supplied output hasher.  Stated over
the list of per-entry digests; to be compared with the `Hash` impls. -/
def specCombineHash (digests : List Nat) (write : Nat → Nat → Nat)
    (st : Nat) : Nat :=
  write st (digests.foldr (fun d acc => d ^^^ acc) 0)

/-- Claim C1: the hash of a frozen wrapper depends only on the set of its
entries: two wrappers holding the same entry set (in any storage or
iteration order) produce identical hash values when fed into
identically-initialized output hashers. -/
theorem claim_C1 :
    (∀ (K V S : Type) (dm : K → V → Nat) (write : Nat → Nat → Nat)
        (st : Nat) (a b : FrozenMap K V S),
      (∀ p ∈ a.map.entries, p ∈ b.map.entries) →
      (∀ p ∈ b.map.entries, p ∈ a.map.entries) →
      FrozenMap.hashImpl dm write st a = FrozenMap.hashImpl dm write st b) ∧
    (∀ (T S : Type) (ds : T → Nat) (write : Nat → Nat → Nat) (st : Nat)
        (a b : FrozenSet T S),
      (∀ x ∈ a.set.elems, x ∈ b.set.elems) →
      (∀ x ∈ b.set.elems, x ∈ a.set.elems) →
      FrozenSet.hashImpl ds write st a = FrozenSet.hashImpl ds write st b) := by
  constructor
  · intro K V S dm write st a b h1 h2
    have hperm : a.map.entries.Perm b.map.entries :=
      perm_of_entries_mem_iff a.map.nodupKeys b.map.nodupKeys
        fun p => ⟨fun hp => h1 p hp, fun hp => h2 p hp⟩
    rw [FrozenMap.hashImpl, FrozenMap.hashImpl, xorFoldDigest_perm _ hperm]
  · intro T S ds write st a b h1 h2
    have hperm : a.set.elems.Perm b.set.elems :=
      (List.perm_ext_iff_of_nodup a.set.nodupElems b.set.nodupElems).mpr
        fun x => ⟨fun hx => h1 x hx, fun hx => h2 x hx⟩
    rw [FrozenSet.hashImpl, FrozenSet.hashImpl, xorFoldDigest_perm _ hperm]

/-- Witness for C1: the maps {1 ↦ 2, 3 ↦ 4} stored in the two opposite
orders, and the sets {1, 2, 3} and {3, 2, 1}, hash identically. -/
theorem claim_C1_witness :
    ((∀ p ∈ ([(1, 2), (3, 4)] : List (Nat × Nat)), p ∈ [(3, 4), (1, 2)]) ∧
     (∀ p ∈ ([(3, 4), (1, 2)] : List (Nat × Nat)), p ∈ [(1, 2), (3, 4)]) ∧
     FrozenMap.hashImpl (fun k v => k + 7 * v) (fun st x => 31 * st + x) 11
        (FrozenMap.mk (HashMapM.mk [(1, 2), (3, 4)] (by decide)
          (RandomState.mk 0 0))) =
      FrozenMap.hashImpl (fun k v => k + 7 * v) (fun st x => 31 * st + x) 11
        (FrozenMap.mk (HashMapM.mk [(3, 4), (1, 2)] (by decide)
          (RandomState.mk 0 0)))) ∧
    ((∀ x ∈ ([1, 2, 3] : List Nat), x ∈ [3, 2, 1]) ∧
     (∀ x ∈ ([3, 2, 1] : List Nat), x ∈ [1, 2, 3]) ∧
     FrozenSet.hashImpl (fun x => 3 * x + 1) (fun st x => 31 * st + x) 11
        (FrozenSet.mk (HashSetM.mk [1, 2, 3] (by decide)
          (RandomState.mk 0 0))) =
      FrozenSet.hashImpl (fun x => 3 * x + 1) (fun st x => 31 * st + x) 11
        (FrozenSet.mk (HashSetM.mk [3, 2, 1] (by decide)
          (RandomState.mk 0 0)))) :=
  ⟨⟨by decide, by decide,
    claim_C1.1 Nat Nat RandomState (fun k v => k + 7 * v)
      (fun st x => 31 * st + x) 11
      (FrozenMap.mk (HashMapM.mk [(1, 2), (3, 4)] (by decide)
        (RandomState.mk 0 0)))
      (FrozenMap.mk (HashMapM.mk [(3, 4), (1, 2)] (by decide)
        (RandomState.mk 0 0)))
      (by decide) (by decide)⟩,
   ⟨by decide, by decide,
    claim_C1.2 Nat RandomState (fun x => 3 * x + 1)
      (fun st x => 31 * st + x) 11
      (FrozenSet.mk (HashSetM.mk [1, 2, 3] (by decide)
        (RandomState.mk 0 0)))
      (FrozenSet.mk (HashSetM.mk [3, 2, 1] (by decide)
        (RandomState.mk 0 0)))
      (by decide) (by decide)⟩⟩

/-- Claim C2: two frozen wrappers compare equal exactly when their
underlying collections are equal as sets of entries: for maps, the same
lookup result at every key; for sets, the same element membership.  The
hash-strategy instances play no part. -/
theorem claim_C2 :
    (∀ (K V S : Type) [DecidableEq K] [DecidableEq V]
        (a b : FrozenMap K V S),
      FrozenMap.eq a b = true ↔
        ∀ k, lookupEntry k a.map.entries = lookupEntry k b.map.entries) ∧
    (∀ (T S : Type) [DecidableEq T] (a b : FrozenSet T S),
      FrozenSet.eq a b = true ↔
        ∀ x, x ∈ a.set.elems ↔ x ∈ b.set.elems) := by
  constructor
  · intro K V S _ _ a b
    exact hashMapEq_true_iff a.map b.map
  · intro T S _ a b
    exact hashSetEq_true_iff a.set b.set

/-- Claim C3: equal wrappers hash equal: whenever two frozen wrappers
compare equal, feeding them into identically-initialized output hashers
yields equal hash values. -/
theorem claim_C3 :
    (∀ (K V S : Type) [DecidableEq K] [DecidableEq V] (dm : K → V → Nat)
        (write : Nat → Nat → Nat) (st : Nat) (a b : FrozenMap K V S),
      FrozenMap.eq a b = true →
      FrozenMap.hashImpl dm write st a = FrozenMap.hashImpl dm write st b) ∧
    (∀ (T S : Type) [DecidableEq T] (ds : T → Nat)
        (write : Nat → Nat → Nat) (st : Nat) (a b : FrozenSet T S),
      FrozenSet.eq a b = true →
      FrozenSet.hashImpl ds write st a = FrozenSet.hashImpl ds write st b) := by
  constructor
  · intro K V S _ _ dm write st a b heq
    have hlk := (hashMapEq_true_iff a.map b.map).mp heq
    have hperm : a.map.entries.Perm b.map.entries := by
      refine perm_of_entries_mem_iff a.map.nodupKeys b.map.nodupKeys ?_
      rintro ⟨k, v⟩
      constructor
      · intro hp
        exact mem_of_lookupEntry_eq_some
          ((hlk k) ▸ lookupEntry_eq_some_of_mem a.map.nodupKeys hp)
      · intro hp
        exact mem_of_lookupEntry_eq_some
          ((hlk k).symm ▸ lookupEntry_eq_some_of_mem b.map.nodupKeys hp)
    rw [FrozenMap.hashImpl, FrozenMap.hashImpl, xorFoldDigest_perm _ hperm]
  · intro T S _ ds write st a b heq
    have hmem := (hashSetEq_true_iff a.set b.set).mp heq
    have hperm : a.set.elems.Perm b.set.elems :=
      (List.perm_ext_iff_of_nodup a.set.nodupElems b.set.nodupElems).mpr hmem
    rw [FrozenSet.hashImpl, FrozenSet.hashImpl, xorFoldDigest_perm _ hperm]

/-- Witness for C3: the maps {1 ↦ 2, 3 ↦ 4} in opposite storage orders
compare equal and hash equal, and likewise the sets {1, 2} and {2, 1}. -/
theorem claim_C3_witness :
    (FrozenMap.eq
        (FrozenMap.mk (HashMapM.mk [(1, 2), (3, 4)] (by decide)
          (RandomState.mk 0 0)))
        (FrozenMap.mk (HashMapM.mk [(3, 4), (1, 2)] (by decide)
          (RandomState.mk 0 0))) = true ∧
     FrozenMap.hashImpl (fun k v => k + 7 * v) (fun st x => 31 * st + x) 11
        (FrozenMap.mk (HashMapM.mk [(1, 2), (3, 4)] (by decide)
          (RandomState.mk 0 0))) =
      FrozenMap.hashImpl (fun k v => k + 7 * v) (fun st x => 31 * st + x) 11
        (FrozenMap.mk (HashMapM.mk [(3, 4), (1, 2)] (by decide)
          (RandomState.mk 0 0)))) ∧
    (FrozenSet.eq
        (FrozenSet.mk (HashSetM.mk [1, 2] (by decide) (RandomState.mk 0 0)))
        (FrozenSet.mk (HashSetM.mk [2, 1] (by decide) (RandomState.mk 0 0)))
        = true ∧
     FrozenSet.hashImpl (fun x => 3 * x + 1) (fun st x => 31 * st + x) 11
        (FrozenSet.mk (HashSetM.mk [1, 2] (by decide)
          (RandomState.mk 0 0))) =
      FrozenSet.hashImpl (fun x => 3 * x + 1) (fun st x => 31 * st + x) 11
        (FrozenSet.mk (HashSetM.mk [2, 1] (by decide)
          (RandomState.mk 0 0)))) :=
  ⟨⟨by decide,
    claim_C3.1 Nat Nat RandomState (fun k v => k + 7 * v)
      (fun st x => 31 * st + x) 11
      (FrozenMap.mk (HashMapM.mk [(1, 2), (3, 4)] (by decide)
        (RandomState.mk 0 0)))
      (FrozenMap.mk (HashMapM.mk [(3, 4), (1, 2)] (by decide)
        (RandomState.mk 0 0)))
      (by decide)⟩,
   ⟨by decide,
    claim_C3.2 Nat RandomState (fun x => 3 * x + 1)
      (fun st x => 31 * st + x) 11
      (FrozenSet.mk (HashSetM.mk [1, 2] (by decide) (RandomState.mk 0 0)))
      (FrozenSet.mk (HashSetM.mk [2, 1] (by decide) (RandomState.mk 0 0)))
      (by decide)⟩⟩

/-- Claim C4: the wrapper's hash is exactly the specified reduction: a
zero-initialized accumulator XOR-combines the per-entry digests (key then
value for a map, element for a set), and the final accumulator is fed to
the output hasher; the empty collection leaves the accumulator at zero,
so empty map and set wrappers hash alike. -/
theorem claim_C4 :
    (∀ (K V S : Type) (dm : K → V → Nat) (write : Nat → Nat → Nat)
        (st : Nat) (m : FrozenMap K V S),
      FrozenMap.hashImpl dm write st m =
        specCombineHash (m.map.entries.map fun e => dm e.1 e.2 % U64MOD)
          write st) ∧
    (∀ (T S : Type) (ds : T → Nat) (write : Nat → Nat → Nat) (st : Nat)
        (s : FrozenSet T S),
      FrozenSet.hashImpl ds write st s =
        specCombineHash (s.set.elems.map fun x => ds x % U64MOD)
          write st) ∧
    (∀ (K V S T S2 : Type) (dm : K → V → Nat) (ds : T → Nat)
        (write : Nat → Nat → Nat) (st : Nat) (m : FrozenMap K V S)
        (s : FrozenSet T S2),
      m.map.entries = [] → s.set.elems = [] →
      FrozenMap.hashImpl dm write st m = write st 0 ∧
      FrozenSet.hashImpl ds write st s = FrozenMap.hashImpl dm write st m) := by
  refine ⟨?_, ?_, ?_⟩
  · intro K V S dm write st m
    rw [FrozenMap.hashImpl, specCombineHash, xorFoldDigest_eq_foldr]
  · intro T S ds write st s
    rw [FrozenSet.hashImpl, specCombineHash, xorFoldDigest_eq_foldr]
  · intro K V S T S2 dm ds write st m s hm hs
    constructor
    · rw [FrozenMap.hashImpl, hm]
      rfl
    · rw [FrozenMap.hashImpl, FrozenSet.hashImpl, hm, hs]
      rfl

/-- Witness for C4: two freshly built empty wrappers, one map and one
set, both hash to `write st 0`. -/
theorem claim_C4_witness :
    (@FrozenMap.mkDefault Nat Nat RandomState
        (RandomState.mk 0 0)).map.entries = [] ∧
    (@FrozenSet.mkDefault Nat RandomState
        (RandomState.mk 5 7)).set.elems = [] ∧
    FrozenMap.hashImpl (fun k v => k + 7 * v) (fun st x => 31 * st + x) 11
      (@FrozenMap.mkDefault Nat Nat RandomState (RandomState.mk 0 0)) =
      (fun st x => 31 * st + x) 11 0 ∧
    FrozenSet.hashImpl (fun x => 3 * x + 1) (fun st x => 31 * st + x) 11
      (@FrozenSet.mkDefault Nat RandomState (RandomState.mk 5 7)) =
      FrozenMap.hashImpl (fun k v => k + 7 * v) (fun st x => 31 * st + x) 11
        (@FrozenMap.mkDefault Nat Nat RandomState (RandomState.mk 0 0)) :=
  ⟨rfl, rfl,
   (claim_C4.2.2 Nat Nat RandomState Nat RandomState
      (fun k v => k + 7 * v) (fun x => 3 * x + 1)
      (fun st x => 31 * st + x) 11
      (@FrozenMap.mkDefault Nat Nat RandomState (RandomState.mk 0 0))
      (@FrozenSet.mkDefault Nat RandomState (RandomState.mk 5 7))
      rfl rfl).1,
   (claim_C4.2.2 Nat Nat RandomState Nat RandomState
      (fun k v => k + 7 * v) (fun x => 3 * x + 1)
      (fun st x => 31 * st + x) 11
      (@FrozenMap.mkDefault Nat Nat RandomState (RandomState.mk 0 0))
      (@FrozenSet.mkDefault Nat RandomState (RandomState.mk 5 7))
      rfl rfl).2⟩

/-- Claim C5: thaw after freeze is the identity: the recovered collection
has the same entries and the same hash-strategy instance. -/
theorem claim_C5 :
    (∀ (K V : Type) (x : HashMapM K V RandomState),
      (HashMapM.freeze x).thaw = x) ∧
    (∀ (T : Type) (x : HashSetM T RandomState),
      (HashSetM.freeze x).thaw = x) :=
  ⟨fun _ _ _ => rfl, fun _ _ => rfl⟩

/-- Claim C6: freeze and thaw are total and move the collection without
change: freezing any map or set (over any strategy type) preserves the
entries and the strategy instance, and thawing returns them unchanged. -/
theorem claim_C6 :
    (∀ (K V S : Type) (x : HashMapM K V S),
      (HashMapM.freeze x).map.entries = x.entries ∧
      (HashMapM.freeze x).map.hashBuilder = x.hashBuilder) ∧
    (∀ (K V : Type) (w : FrozenMap K V RandomState),
      w.thaw.entries = w.map.entries ∧
      w.thaw.hashBuilder = w.map.hashBuilder) ∧
    (∀ (T S : Type) (x : HashSetM T S),
      (HashSetM.freeze x).set.elems = x.elems ∧
      (HashSetM.freeze x).set.hashBuilder = x.hashBuilder) ∧
    (∀ (T : Type) (w : FrozenSet T RandomState),
      w.thaw.elems = w.set.elems ∧
      w.thaw.hashBuilder = w.set.hashBuilder) :=
  ⟨fun _ _ _ _ => ⟨rfl, rfl⟩, fun _ _ _ => ⟨rfl, rfl⟩,
   fun _ _ _ => ⟨rfl, rfl⟩, fun _ _ => ⟨rfl, rfl⟩⟩

/-- Claim C7: indexing a frozen map by a present key returns the stored
value; indexing by an absent key aborts (modelled as `none`). -/
theorem claim_C7 :
    (∀ (K V S : Type) [DecidableEq K] (m : FrozenMap K V S) (k : K)
        (v : V), (k, v) ∈ m.map.entries → m.index k = some v) ∧
    (∀ (K V S : Type) [DecidableEq K] (m : FrozenMap K V S) (k : K),
      k ∉ m.map.entries.map Prod.fst → m.index k = none) := by
  constructor
  · intro K V S _ m k v h
    exact lookupEntry_eq_some_of_mem m.map.nodupKeys h
  · intro K V S _ m k h
    exact lookupEntry_eq_none_iff.mpr h

/-- Witness for C7: on the wrapper built from {"a" ↦ 1, "b" ↦ 2},
indexing by "a" yields 1 and indexing by "c" aborts. -/
theorem claim_C7_witness :
    (((("a" : String), (1 : Nat)) ∈
        [(("a" : String), (1 : Nat)), ("b", 2)] ∧
      (FrozenMap.mk (HashMapM.mk [(("a" : String), (1 : Nat)), ("b", 2)]
        (by decide) (RandomState.mk 0 0))).index "a" = some 1) ∧
     (("c" : String) ∉
        ([(("a" : String), (1 : Nat)), ("b", 2)].map Prod.fst) ∧
      (FrozenMap.mk (HashMapM.mk [(("a" : String), (1 : Nat)), ("b", 2)]
        (by decide) (RandomState.mk 0 0))).index "c" = none)) :=
  ⟨⟨by decide,
    claim_C7.1 String Nat RandomState
      (FrozenMap.mk (HashMapM.mk [("a", 1), ("b", 2)] (by decide)
        (RandomState.mk 0 0))) "a" 1 (by decide)⟩,
   ⟨by decide,
    claim_C7.2 String Nat RandomState
      (FrozenMap.mk (HashMapM.mk [("a", 1), ("b", 2)] (by decide)
        (RandomState.mk 0 0))) "c" (by decide)⟩⟩

/-- Claim C8: construction from an iterator deduplicates: the built map
answers every key with the last value supplied for it and its keys are
unique; the built set holds exactly the iterated elements with no
duplicates; default construction is the empty wrapper carrying the
default strategy instance. -/
theorem claim_C8 :
    (∀ (K V S : Type) [DecidableEq K] (s : S) (l : List (K × V)) (k : K),
      lookupEntry k (FrozenMap.fromIter s l).map.entries = lastVal k l) ∧
    (∀ (K V S : Type) [DecidableEq K] (s : S) (l : List (K × V)),
      (((FrozenMap.fromIter s l).map.entries.map Prod.fst).Nodup)) ∧
    (∀ (T S : Type) [DecidableEq T] (s : S) (l : List T) (x : T),
      x ∈ (FrozenSet.fromIter s l).set.elems ↔ x ∈ l) ∧
    (∀ (T S : Type) [DecidableEq T] (s : S) (l : List T),
      ((FrozenSet.fromIter s l).set.elems.Nodup)) ∧
    (∀ (K V S : Type) (s : S),
      (@FrozenMap.mkDefault K V S s).map.entries = [] ∧
      (@FrozenMap.mkDefault K V S s).map.hashBuilder = s) ∧
    (∀ (T S : Type) (s : S),
      (@FrozenSet.mkDefault T S s).set.elems = [] ∧
      (@FrozenSet.mkDefault T S s).set.hashBuilder = s) := by
  refine ⟨?_, ?_, ?_, ?_, ?_, ?_⟩
  · intro K V S _ s l k
    exact lookupEntry_insertAll k l
  · intro K V S _ s l
    exact insertAll_nodupKeys l
  · intro T S _ s l x
    exact mem_insertAllElems
  · intro T S _ s l
    exact insertAllElems_nodup l
  · intro K V S s
    exact ⟨rfl, rfl⟩
  · intro T S s
    exact ⟨rfl, rfl⟩

/-- Claim C9: the combination hash is independent of the element-level
hash-strategy component: wrappers over different strategy types (and
instances) with the same entry set hash identically, because per-entry
digests come from the fixed default hasher. -/
theorem claim_C9 :
    (∀ (K V S1 S2 : Type) (dm : K → V → Nat) (write : Nat → Nat → Nat)
        (st : Nat) (a : FrozenMap K V S1) (b : FrozenMap K V S2),
      (∀ p ∈ a.map.entries, p ∈ b.map.entries) →
      (∀ p ∈ b.map.entries, p ∈ a.map.entries) →
      FrozenMap.hashImpl dm write st a = FrozenMap.hashImpl dm write st b) ∧
    (∀ (T S1 S2 : Type) (ds : T → Nat) (write : Nat → Nat → Nat)
        (st : Nat) (a : FrozenSet T S1) (b : FrozenSet T S2),
      (∀ x ∈ a.set.elems, x ∈ b.set.elems) →
      (∀ x ∈ b.set.elems, x ∈ a.set.elems) →
      FrozenSet.hashImpl ds write st a = FrozenSet.hashImpl ds write st b) := by
  constructor
  · intro K V S1 S2 dm write st a b h1 h2
    have hperm : a.map.entries.Perm b.map.entries :=
      perm_of_entries_mem_iff a.map.nodupKeys b.map.nodupKeys
        fun p => ⟨fun hp => h1 p hp, fun hp => h2 p hp⟩
    rw [FrozenMap.hashImpl, FrozenMap.hashImpl, xorFoldDigest_perm _ hperm]
  · intro T S1 S2 ds write st a b h1 h2
    have hperm : a.set.elems.Perm b.set.elems :=
      (List.perm_ext_iff_of_nodup a.set.nodupElems b.set.nodupElems).mpr
        fun x => ⟨fun hx => h1 x hx, fun hx => h2 x hx⟩
    rw [FrozenSet.hashImpl, FrozenSet.hashImpl, xorFoldDigest_perm _ hperm]

/-- Witness for C9: a map backed by a `RandomState` instance and the same
map backed by a `Nat`-typed strategy hash identically, and likewise for
sets. -/
theorem claim_C9_witness :
    ((∀ p ∈ ([(1, 2), (3, 4)] : List (Nat × Nat)), p ∈ [(1, 2), (3, 4)]) ∧
     (∀ p ∈ ([(1, 2), (3, 4)] : List (Nat × Nat)), p ∈ [(1, 2), (3, 4)]) ∧
     FrozenMap.hashImpl (fun k v => k + 7 * v) (fun st x => 31 * st + x) 11
        (FrozenMap.mk (HashMapM.mk [(1, 2), (3, 4)] (by decide)
          (RandomState.mk 0 0))) =
      FrozenMap.hashImpl (fun k v => k + 7 * v) (fun st x => 31 * st + x) 11
        (FrozenMap.mk (HashMapM.mk [(1, 2), (3, 4)] (by decide)
          (42 : Nat)))) ∧
    ((∀ x ∈ ([5, 6] : List Nat), x ∈ [6, 5]) ∧
     (∀ x ∈ ([6, 5] : List Nat), x ∈ [5, 6]) ∧
     FrozenSet.hashImpl (fun x => 3 * x + 1) (fun st x => 31 * st + x) 11
        (FrozenSet.mk (HashSetM.mk [5, 6] (by decide)
          (RandomState.mk 0 0))) =
      FrozenSet.hashImpl (fun x => 3 * x + 1) (fun st x => 31 * st + x) 11
        (FrozenSet.mk (HashSetM.mk [6, 5] (by decide) (42 : Nat)))) :=
  ⟨⟨by decide, by decide,
    claim_C9.1 Nat Nat RandomState Nat (fun k v => k + 7 * v)
      (fun st x => 31 * st + x) 11
      (FrozenMap.mk (HashMapM.mk [(1, 2), (3, 4)] (by decide)
        (RandomState.mk 0 0)))
      (FrozenMap.mk (HashMapM.mk [(1, 2), (3, 4)] (by decide) (42 : Nat)))
      (by decide) (by decide)⟩,
   ⟨by decide, by decide,
    claim_C9.2 Nat RandomState Nat (fun x => 3 * x + 1)
      (fun st x => 31 * st + x) 11
      (FrozenSet.mk (HashSetM.mk [5, 6] (by decide) (RandomState.mk 0 0)))
      (FrozenSet.mk (HashSetM.mk [6, 5] (by decide) (42 : Nat)))
      (by decide) (by decide)⟩⟩

/-- Claim C10: hashing is deterministic within a process: the hash value
is a pure function of the entry list, the digest function and the output
hasher's initial state, so hashing the same wrapper twice (or any wrapper
with the same stored entries, whatever strategy instance it carries)
yields the same value. -/
theorem claim_C10 :
    (∀ (K V S : Type) (dm : K → V → Nat) (write : Nat → Nat → Nat)
        (st : Nat) (a b : FrozenMap K V S),
      a.map.entries = b.map.entries →
      FrozenMap.hashImpl dm write st a = FrozenMap.hashImpl dm write st b) ∧
    (∀ (T S : Type) (ds : T → Nat) (write : Nat → Nat → Nat) (st : Nat)
        (a b : FrozenSet T S),
      a.set.elems = b.set.elems →
      FrozenSet.hashImpl ds write st a = FrozenSet.hashImpl ds write st b) := by
  constructor
  · intro K V S dm write st a b h
    rw [FrozenMap.hashImpl, FrozenMap.hashImpl, h]
  · intro T S ds write st a b h
    rw [FrozenSet.hashImpl, FrozenSet.hashImpl, h]

/-- Witness for C10: two wrappers storing the same entry list (with
different strategy instances) hash identically. -/
theorem claim_C10_witness :
    ((FrozenMap.mk (HashMapM.mk [(1, 2), (3, 4)] (by decide)
        (RandomState.mk 0 0))).map.entries =
      (FrozenMap.mk (HashMapM.mk [(1, 2), (3, 4)] (by decide)
        (RandomState.mk 9 9))).map.entries ∧
     FrozenMap.hashImpl (fun k v => k + 7 * v) (fun st x => 31 * st + x) 11
        (FrozenMap.mk (HashMapM.mk [(1, 2), (3, 4)] (by decide)
          (RandomState.mk 0 0))) =
      FrozenMap.hashImpl (fun k v => k + 7 * v) (fun st x => 31 * st + x) 11
        (FrozenMap.mk (HashMapM.mk [(1, 2), (3, 4)] (by decide)
          (RandomState.mk 9 9)))) ∧
    ((FrozenSet.mk (HashSetM.mk [1, 2] (by decide)
        (RandomState.mk 0 0))).set.elems =
      (FrozenSet.mk (HashSetM.mk [1, 2] (by decide)
        (RandomState.mk 9 9))).set.elems ∧
     FrozenSet.hashImpl (fun x => 3 * x + 1) (fun st x => 31 * st + x) 11
        (FrozenSet.mk (HashSetM.mk [1, 2] (by decide)
          (RandomState.mk 0 0))) =
      FrozenSet.hashImpl (fun x => 3 * x + 1) (fun st x => 31 * st + x) 11
        (FrozenSet.mk (HashSetM.mk [1, 2] (by decide)
          (RandomState.mk 9 9)))) :=
  ⟨⟨rfl,
    claim_C10.1 Nat Nat RandomState (fun k v => k + 7 * v)
      (fun st x => 31 * st + x) 11
      (FrozenMap.mk (HashMapM.mk [(1, 2), (3, 4)] (by decide)
        (RandomState.mk 0 0)))
      (FrozenMap.mk (HashMapM.mk [(1, 2), (3, 4)] (by decide)
        (RandomState.mk 9 9)))
      rfl⟩,
   ⟨rfl,
    claim_C10.2 Nat RandomState (fun x => 3 * x + 1)
      (fun st x => 31 * st + x) 11
      (FrozenSet.mk (HashSetM.mk [1, 2] (by decide) (RandomState.mk 0 0)))
      (FrozenSet.mk (HashSetM.mk [1, 2] (by decide) (RandomState.mk 9 9)))
      rfl⟩⟩

end Frozenset
